import Mathlib

/-!
# arweave-go: the Transactor

A shallow embedding of `transactor/transactor.go` (package `transactor`) and
theorems about its fee policy, its amount arithmetic, its submission guard,
its confirmation polling loop and its address resolution.

Conventions of the embedding

* A Go `string` is a Lean `String`, a `[]byte` a `List UInt8`.
* A Go `int64` is an `Int`; the one arithmetic operation of the source that can
  leave the 64-bit range (`amountInt - fee`) is wrapped by `wrapInt64`, which is
  what Go's two's-complement subtraction computes.
* A Go result `(v, err)` is a pair whose second component is an
  `Option Error`, `none` standing for a nil error; a nillable pointer is an
  `Option`.
* Of Go's standard library, `strconv.ParseInt`, `fmt.Sprintf("%d", _)` and
  `url.Parse` are modelled as far as the source depends on them; a line
  printed by `fmt.Printf` is recorded as the value it was formatted from.
* The remote node behind `ClientCaller` is a state machine over an arbitrary
  state type `σ`; every call the Transactor makes is recorded in `World.calls`.
  The `context.Context` handed to each client call is part of that state, and
  is modelled explicitly only where the source inspects it (`WaitMined`).
-/

namespace Arweave

/-! ## Errors -/

/-- The two sentinel errors of Go's `strconv`: `ErrSyntax` and `ErrRange`. -/
inductive NumErrKind where
  | syntaxErr
  | rangeErr
  deriving DecidableEq, Repr

/-- A Go `error` value. -/
inductive Error where
  /-- The result of `errors.New` and `fmt.Errorf`: a message. -/
  | errorString (msg : String)
  /-- A `*strconv.NumError` with its fields `Func`, `Num`, `Err`. -/
  | numError (func : String) (num : String) (kind : NumErrKind)
  /-- A `url.EscapeError`; the offending bytes it carries are not modelled. -/
  | escapeError
  /-- A `*url.Error` with its fields `Op`, `URL`, `Err`. -/
  | urlError (op : String) (url : String) (err : Error)
  /-- The sentinel `context.Canceled`. -/
  | canceled
  /-- The sentinel `context.DeadlineExceeded`. -/
  | deadlineExceeded
  /-- Any other error (transport, node), named by its message. -/
  | external (msg : String)
  deriving DecidableEq, Repr

/-! ## The standard-library functions the source calls -/

/-- The largest `uint64`. -/
def maxUint64 : Nat := 2 ^ 64 - 1

/-- The smallest `int64`. -/
def minInt64 : Int := -(2 ^ 63)

/-- The largest `int64`. -/
def maxInt64 : Int := 2 ^ 63 - 1

/-- Membership of the `int64` range. -/
def isInt64 (x : Int) : Prop := minInt64 ≤ x ∧ x ≤ maxInt64

instance (x : Int) : Decidable (isInt64 x) := by
  unfold isInt64; exact inferInstance

/-- Two's-complement reduction of an integer to the `int64` range: the value
Go's `int64` arithmetic yields for the mathematical result `x`. -/
def wrapInt64 (x : Int) : Int := (x + 2 ^ 63) % 2 ^ 64 - 2 ^ 63

/-- The digit loop of `strconv.ParseUint(s, 10, 64)`: `n` is the value read so
far. The result is Go's pair `(value, error kind)`. -/
def ParseUintLoop : List Char → Nat → Nat × Option NumErrKind
  | [], n => (n, none)
  | c :: cs, n =>
    if c.isDigit then
      let d := c.toNat - 48
      if n ≥ maxUint64 / 10 + 1 then
        (maxUint64, some .rangeErr)
      else
        let n1 := n * 10 + d
        if n1 > maxUint64 then
          (maxUint64, some .rangeErr)
        else
          ParseUintLoop cs n1
    else
      (0, some .syntaxErr)

/-- Go's `strconv.ParseUint(s, 10, 64)`. -/
def ParseUint (s : String) : Nat × Option NumErrKind :=
  if s = "" then (0, some .syntaxErr) else ParseUintLoop s.data 0

/-- Go's `strconv.ParseInt(s, 10, 64)`: an optional sign, then decimal digits;
a value outside the `int64` range is a range error. -/
def ParseInt (s : String) : Int × Option Error :=
  match s.data with
  | [] => (0, some (.numError "ParseInt" s .syntaxErr))
  | c :: rest =>
    let neg := c = '-'
    let body := if c = '+' ∨ c = '-' then String.mk rest else s
    let (un, err) := ParseUint body
    if err = some .syntaxErr then
      (0, some (.numError "ParseInt" s .syntaxErr))
    else
      let cutoff : Nat := 2 ^ 63
      if ¬ neg ∧ un ≥ cutoff then
        (Int.ofNat (cutoff - 1), some (.numError "ParseInt" s .rangeErr))
      else if neg ∧ un > cutoff then
        (-(Int.ofNat cutoff), some (.numError "ParseInt" s .rangeErr))
      else
        let n := wrapInt64 (Int.ofNat un)
        (if neg then wrapInt64 (-n) else n, none)

/-- Go's `fmt.Sprintf("%d", x)` for an integer `x`. -/
def fmtD (x : Int) : String :=
  if x < 0 then "-" ++ Nat.repr x.natAbs else Nat.repr x.natAbs

/-! ## The data model -/

/-- A byte slice. -/
abbrev Bytes := List UInt8

/-- Modelled from the spec: the record `tx.Transaction` of package `tx`, which
is not among the sources. Its fields are the ones the spec's data model lists
(anchor, sender public key material, amount, target, data, fee, signature)
and the identifier the wire schema adds. -/
structure Transaction where
  id : String
  anchor : String
  owner : Int
  amount : String
  target : String
  data : Bytes
  fee : String
  signature : Bytes
  deriving DecidableEq, Repr

/-- Modelled from the spec: the constructor `tx.NewTransaction` of package
`tx`, which is not among the sources. It assembles an unsigned transaction
from anchor, public key material, amount, target, payload and fee, in the
order the source passes them; the signature is absent and no identifier is
set yet. -/
def NewTransaction (lastTx : String) (owner : Int) (quantity : String) (target : String)
    (data : Bytes) (reward : String) : Transaction :=
  { id := "", anchor := lastTx, owner := owner, amount := quantity, target := target,
    data := data, fee := reward, signature := [] }

/-- Modelled from the spec: the accessor `Signature()` of `tx.Transaction`. -/
def Transaction.Signature (t : Transaction) : Bytes := t.signature

/-- Modelled from the spec: the accessor `Hash()` of `tx.Transaction`, the
identifier by which the node looks a transaction up. -/
def Transaction.Hash (t : Transaction) : String := t.id

/-- The interface `arweave.WalletSigner`, of which the source calls one
method: the modulus of the public key. -/
structure WalletSigner where
  PubKeyModulus : Int

/-- The interface `ClientCaller`: each method takes the state of the remote
side and returns Go's result pair with the state after the call. -/
structure ClientCaller (σ : Type) where
  TxAnchor : σ → (String × Option Error) × σ
  LastTransaction : σ → String → (String × Option Error) × σ
  GetReward : σ → Bytes → String → (String × Option Error) × σ
  Commit : σ → Bytes → (String × Option Error) × σ
  GetTransaction : σ → String → (Option Transaction × Option Error) × σ

/-- One call on the client, with its arguments. -/
inductive Call where
  | TxAnchor
  | LastTransaction (address : String)
  | GetReward (data : Bytes) (target : String)
  | Commit (data : Bytes)
  | GetTransaction (txID : String)
  deriving DecidableEq, Repr

/-- A line `WaitMined` prints on standard output. The line of an error is
given by the error itself, whose message `err.Error()` the line carries. -/
inductive Printed where
  /-- `fmt.Printf("Error retrieving transaction %s \n", err.Error())`. -/
  | errorRetrieving (err : Error)
  /-- `fmt.Printf("Transaction not yet mined \n")`. -/
  | notYetMined
  deriving DecidableEq, Repr

/-- The state the Transactor runs against: the state of the remote side, the
calls made on the client so far (oldest first) and the lines printed. -/
structure World (σ : Type) where
  state : σ
  calls : List Call
  output : List Printed

/-- The struct `Transactor`. -/
structure Transactor (σ : Type) where
  Client : ClientCaller σ

/-- A fresh world over a client state: nothing called, nothing printed. -/
def World.init {σ : Type} (s : σ) : World σ := { state := s, calls := [], output := [] }

/-- Performs `tr.Client.TxAnchor(ctx)` and records the call. -/
def callTxAnchor {σ : Type} (c : ClientCaller σ) (wd : World σ) :
    (String × Option Error) × World σ :=
  let r := c.TxAnchor wd.state
  (r.1, { wd with state := r.2, calls := wd.calls ++ [Call.TxAnchor] })

/-- Performs `tr.Client.GetReward(ctx, data, target)` and records the call. -/
def callGetReward {σ : Type} (c : ClientCaller σ) (wd : World σ) (data : Bytes)
    (target : String) : (String × Option Error) × World σ :=
  let r := c.GetReward wd.state data target
  (r.1, { wd with state := r.2, calls := wd.calls ++ [Call.GetReward data target] })

/-- Performs `tr.Client.Commit(ctx, data)` and records the call. -/
def callCommit {σ : Type} (c : ClientCaller σ) (wd : World σ) (data : Bytes) :
    (String × Option Error) × World σ :=
  let r := c.Commit wd.state data
  (r.1, { wd with state := r.2, calls := wd.calls ++ [Call.Commit data] })

/-- Performs `tr.Client.GetTransaction(ctx, txID)` and records the call. -/
def callGetTransaction {σ : Type} (c : ClientCaller σ) (wd : World σ) (txID : String) :
    (Option Transaction × Option Error) × World σ :=
  let r := c.GetTransaction wd.state txID
  (r.1, { wd with state := r.2, calls := wd.calls ++ [Call.GetTransaction txID] })

/-- Performs the `fmt.Printf` of a line. -/
def printLine {σ : Type} (wd : World σ) (line : Printed) : World σ :=
  { wd with output := wd.output ++ [line] }

/-! ## Creating a transaction -/

/-- The error of line 86: `fmt.Errorf("transfer fee exceeds limit -> %d ", maxFee)`. -/
def feeExceedsLimit (maxFee : Int) : Error :=
  .errorString ("transfer fee exceeds limit -> " ++ fmtD maxFee ++ " ")

/-- The method `Transactor.CreateTransaction`. The local function `rest` is
the remainder of the body after the fee has been settled (lines 89 to 106),
which the source reaches with `fee = minFee` from the first branch and with
the estimate itself when neither branch is taken. -/
def CreateTransaction {σ : Type} (tr : Transactor σ) (wd : World σ) (w : WalletSigner)
    (amount : String) (data : Bytes) (target : String) (minFee maxFee : Int)
    (includeFee : Bool) : (Option Transaction × Option Error) × World σ :=
  let ((lastTx, err), wd) := callTxAnchor tr.Client wd
  match err with
  | some e => ((none, some e), wd)
  | none =>
    let ((price, err), wd) := callGetReward tr.Client wd data target
    match err with
    | some e => ((none, some e), wd)
    | none =>
      let (fee, err) := ParseInt price
      match err with
      | some e => ((none, some e), wd)
      | none =>
        let rest := fun (fee : Int) =>
          if includeFee then
            let (amountInt, err) := ParseInt amount
            match err with
            | some e => ((none, some e), wd)
            | none =>
              let amountInt := wrapInt64 (amountInt - fee)
              let amount := fmtD amountInt
              ((some (NewTransaction lastTx w.PubKeyModulus amount target data (fmtD fee)), none), wd)
          else
            ((some (NewTransaction lastTx w.PubKeyModulus amount target data (fmtD fee)), none), wd)
        if fee < minFee then
          rest minFee
        else if fee > maxFee then
          ((none, some (feeExceedsLimit maxFee)), wd)
        else
          rest fee

/-- The method `Transactor.CreateTransactionWithFee`. -/
def CreateTransactionWithFee {σ : Type} (tr : Transactor σ) (wd : World σ) (w : WalletSigner)
    (amount : String) (data : Bytes) (target : String) (fee : Int)
    (includeFee : Bool) : (Option Transaction × Option Error) × World σ :=
  let ((lastTx, err), wd) := callTxAnchor tr.Client wd
  match err with
  | some e => ((none, some e), wd)
  | none =>
    if includeFee then
      let (amountInt, err) := ParseInt amount
      match err with
      | some e => ((none, some e), wd)
      | none =>
        let amountInt := wrapInt64 (amountInt - fee)
        let amount := fmtD amountInt
        ((some (NewTransaction lastTx w.PubKeyModulus amount target data (fmtD fee)), none), wd)
    else
      ((some (NewTransaction lastTx w.PubKeyModulus amount target data (fmtD fee)), none), wd)

/-! ## Submitting a transaction -/

/-- The error of line 139: `errors.New("transaction missing signature")`. -/
def missingSignature : Error := .errorString "transaction missing signature"

/-- The method `Transactor.SendTransaction`. The serialisation
`json.Marshal(tx)` depends on the marshalling code of package `tx`, which is
not among the sources: it is the parameter `marshal`. -/
def SendTransaction {σ : Type} (marshal : Transaction → Bytes × Option Error)
    (tr : Transactor σ) (wd : World σ) (tx : Transaction) :
    (String × Option Error) × World σ :=
  if tx.Signature.length = 0 then
    (("", some missingSignature), wd)
  else
    let (serialized, err) := marshal tx
    match err with
    | some e => (("", some e), wd)
    | none => callCommit tr.Client wd serialized

/-! ## Waiting for confirmation -/

/-- What the `select` of one iteration of `WaitMined` meets: `ctxErr` is the
value of `ctx.Err()` once `ctx.Done()` is closed, `none` while the context is
neither cancelled nor past its deadline during that wait; `tickFirst` tells
whether the Go runtime takes the ticker case when it finds both cases ready
(the choice among ready cases is the runtime's, made at random). -/
structure SelectEnv where
  ctxErr : Option Error
  tickFirst : Bool
  deriving DecidableEq, Repr

/-- The outcome of the `select` statement of lines 163 to 167: `some e` when
the case `<-ctx.Done()` is taken and `ctx.Err()` is `e`, `none` when the case
`<-ticker.C` is taken. With an open `Done` channel the statement blocks until
the ticker fires. -/
def selectOutcome (env : SelectEnv) : Option Error :=
  match env.ctxErr with
  | none => none
  | some e => if env.tickFirst then none else some e

/-- The method `Transactor.WaitMined`, run for at most `fuel` iterations of
its loop: `none` when the loop is still polling once the fuel is spent.
`ctx i` is what the `select` of iteration `i` meets, `i` the number of the
current iteration. -/
def WaitMined {σ : Type} (tr : Transactor σ) (ctx : Nat → SelectEnv) (tx : Transaction) :
    Nat → Nat → World σ → Option ((Option Transaction × Option Error) × World σ)
  | 0, _, _ => none
  | fuel + 1, i, wd =>
    let ((receipt, err), wd) := callGetTransaction tr.Client wd tx.Hash
    match receipt with
    | some r => some ((some r, none), wd)
    | none =>
      let wd := match err with
        | some e => printLine wd (.errorRetrieving e)
        | none => printLine wd .notYetMined
      match selectOutcome (ctx i) with
      | some e => some ((none, some e), wd)
      | none => WaitMined tr ctx tx fuel (i + 1) wd

/-! ## Constructing a Transactor -/

/-- The constant `defaultPort`. -/
def defaultPort : String := "1984"

/-- The constant `defaultURL`. -/
def defaultURL : String := "http://127.0.0.1" ++ ":" ++ defaultPort

/-- The part of Go's `url.URL` the source reads: the scheme. -/
structure URL where
  Scheme : String
  deriving DecidableEq, Repr

/-- Go's `strings.Cut(s, sep)` for a separator `sep` of one byte: the text
before the first separator, the text after it, and whether there is one. -/
def cut (sep : Char) : List Char → List Char × List Char × Bool
  | [] => ([], [], false)
  | c :: cs =>
    if c = sep then ([], cs, true)
    else ((c :: (cut sep cs).1), (cut sep cs).2.1, (cut sep cs).2.2)

/-- Go's `stringContainsCTLByte` of package `net/url`: a byte below the blank,
or the byte `0x7f`. -/
def stringContainsCTLByte (s : List Char) : Bool :=
  s.any (fun c => decide (c.toNat < 32 ∨ c.toNat = 127))

/-- The loop of Go's `getScheme` of package `net/url` from position `i` on:
`seen` is `rawURL[:i]`, the first argument `rawURL[i:]`. The result is Go's
triple `(scheme, path, err)`. -/
def getSchemeFrom (rawURL : List Char) : List Char → List Char →
    List Char × List Char × Option Error
  | [], _ => ([], rawURL, none)
  | c :: cs, seen =>
    if c.isAlpha then
      getSchemeFrom rawURL cs (seen ++ [c])
    else if c.isDigit ∨ c = '+' ∨ c = '-' ∨ c = '.' then
      if seen = [] then ([], rawURL, none) else getSchemeFrom rawURL cs (seen ++ [c])
    else if c = ':' then
      if seen = [] then ([], [], some (.errorString "missing protocol scheme"))
      else (seen, cs, none)
    else
      ([], rawURL, none)

/-- Go's `getScheme` of package `net/url`. -/
def getScheme (rawURL : List Char) : List Char × List Char × Option Error :=
  getSchemeFrom rawURL rawURL []

/-- Go's `ishex` of package `net/url`. -/
def ishex (c : Char) : Bool :=
  c.isDigit || (decide ('a' ≤ c) && decide (c ≤ 'f')) || (decide ('A' ≤ c) && decide (c ≤ 'F'))

/-- The error of Go's `unescape` of package `net/url` in the modes of a path
and of a fragment: an escape error when a `%` is not followed by two
hexadecimal digits, no error otherwise. -/
def unescapeError : List Char → Option Error
  | [] => none
  | c :: cs =>
    if c = '%' then
      match cs with
      | a :: b :: rest => if ishex a ∧ ishex b then unescapeError rest else some .escapeError
      | _ => some .escapeError
    else unescapeError cs

/-- Go's `parse(rawURL, false)` of package `net/url`, as far as the scheme and
the error go. The validation of the authority part (user information, host
and port) by Go's `parseAuthority`, whose rules have changed between Go
releases, is the parameter `parseAuthority`; it is consulted only for a
text that has `//` after the scheme. -/
def parse (parseAuthority : String → Option Error) (rawURL : List Char) : URL × Option Error :=
  if stringContainsCTLByte rawURL then
    (⟨""⟩, some (.errorString "net/url: invalid control character in URL"))
  else if rawURL = ['*'] then
    (⟨""⟩, none)
  else
    let (scheme, rest, err) := getScheme rawURL
    match err with
    | some e => (⟨""⟩, some e)
    | none =>
      let scheme := scheme.map Char.toLower
      let rest := (cut '?' rest).1
      if ¬ ['/'].isPrefixOf rest ∧ scheme ≠ [] then
        (⟨String.mk scheme⟩, none)
      else if ¬ ['/'].isPrefixOf rest ∧ (cut '/' rest).1.contains ':' then
        (⟨""⟩, some (.errorString "first path segment in URL cannot contain colon"))
      else if (scheme ≠ [] ∨ ¬ ['/', '/', '/'].isPrefixOf rest) ∧ ['/', '/'].isPrefixOf rest then
        let authority := (cut '/' (rest.drop 2)).1
        let rest := if (cut '/' (rest.drop 2)).2.2 then '/' :: (cut '/' (rest.drop 2)).2.1 else []
        match parseAuthority (String.mk authority) with
        | some e => (⟨""⟩, some e)
        | none =>
          match unescapeError rest with
          | some e => (⟨""⟩, some e)
          | none => (⟨String.mk scheme⟩, none)
      else
        match unescapeError rest with
        | some e => (⟨""⟩, some e)
        | none => (⟨String.mk scheme⟩, none)

/-- Go's `url.Parse` (Go 1.12 and later), as far as the scheme and the error
go: the fragment is cut off, the rest parsed, the fragment unescaped. -/
def Parse (parseAuthority : String → Option Error) (rawURL : String) : URL × Option Error :=
  let u := (cut '#' rawURL.data).1
  let frag := (cut '#' rawURL.data).2.1
  let (url, err) := parse parseAuthority u
  match err with
  | some e => (⟨""⟩, some (.urlError "parse" (String.mk u) e))
  | none =>
    if frag = [] then
      (url, none)
    else
      match unescapeError frag with
      | some e => (⟨""⟩, some (.urlError "parse" rawURL e))
      | none => (url, none)

/-- The scheme `url.Parse` reports for a text it accepts: what `getScheme`
finds before the fragment, in lower case. -/
def schemeOf (rawURL : String) : String :=
  String.mk ((getScheme (cut '#' rawURL.data).1).1.map Char.toLower)

/-- The function `NewTransactor`. Go's `url.Parse` and the function
`api.Dial` of package `api`, which is not among the sources, are the
parameters `urlParse` and `dial`; `κ` is the type of the client pointer
`dial` returns. The first component of the result is Go's pair
`(*Transactor, error)`, the Transactor `&Transactor{Client: c}` being given by
its client `c`; the second component lists the addresses passed to `dial`. -/
def NewTransactor {κ : Type} (urlParse : String → URL × Option Error)
    (dial : String → κ × Option Error) (fullURL : String) :
    (Option κ × Option Error) × List String :=
  if fullURL = "" then
    let (c, err) := dial defaultURL
    match err with
    | some e => ((none, some e), [defaultURL])
    | none => ((some c, none), [defaultURL])
  else
    let (u, err) := urlParse fullURL
    match err with
    | some e => ((none, some e), [])
    | none =>
      let formattedURL := fullURL
      let formattedURL :=
        if u.Scheme = "" then "http://" ++ formattedURL ++ ":" ++ defaultPort else formattedURL
      let (c, err) := dial formattedURL
      match err with
      | some e => ((none, some e), [formattedURL])
      | none => ((some c, none), [formattedURL])

/-- What `NewTransactor` makes of the result of `api.Dial`: the error, or a
Transactor around the client. -/
def dialed {κ : Type} (r : κ × Option Error) : Option κ × Option Error :=
  match r.2 with
  | some e => (none, some e)
  | none => (some r.1, none)

/-- A stand-in for `api.Dial` whose client is the address it was given. -/
def exampleDial (address : String) : String × Option Error := (address, none)

/-! ## Concrete clients -/

/-- A node that answers every anchor request with `anchor` and every fee
query with `price`, accepts every commit and knows no transaction. -/
def fixedClient (anchor price : String) : ClientCaller Unit where
  TxAnchor := fun s => ((anchor, none), s)
  LastTransaction := fun s _ => (("", none), s)
  GetReward := fun s _ _ => ((price, none), s)
  Commit := fun s _ => (("OK", none), s)
  GetTransaction := fun s _ => ((none, some (.external "not found")), s)

/-- The Transactor over `fixedClient`. -/
def fixedTransactor (anchor price : String) : Transactor Unit := ⟨fixedClient anchor price⟩

/-- A signer whose public key modulus is 65537. -/
def someSigner : WalletSigner := ⟨65537⟩

/-! ## Definitions used to state the theorems -/

/-- The result of lines 89 to 106 (and of lines 115 to 132) for an anchor
`lastTx` and a settled fee `fee`: the `includeFee` adjustment followed by the
assembly of the transaction. -/
def assembled (lastTx : String) (w : WalletSigner) (amount : String) (data : Bytes)
    (target : String) (fee : Int) (includeFee : Bool) : Option Transaction × Option Error :=
  if includeFee then
    match ParseInt amount with
    | (_, some e) => (none, some e)
    | (amountInt, none) =>
      (some (NewTransaction lastTx w.PubKeyModulus (fmtD (wrapInt64 (amountInt - fee))) target
        data (fmtD fee)), none)
  else
    (some (NewTransaction lastTx w.PubKeyModulus amount target data (fmtD fee)), none)

/-- The conditions under which the fee policy of `CreateTransaction` is
reached: the anchor fetch succeeds, the fee query succeeds with the estimate
`price`, and `price` parses as the integer `e`. -/
def estimateIs {σ : Type} (tr : Transactor σ) (wd : World σ) (data : Bytes) (target : String)
    (price : String) (e : Int) : Prop :=
  (tr.Client.TxAnchor wd.state).1.2 = none ∧
  (tr.Client.GetReward (tr.Client.TxAnchor wd.state).2 data target).1 = (price, none) ∧
  ParseInt price = (e, none)

/-- The fee `CreateTransaction` settles on for an estimate `e` that it does
not reject: the floor when the estimate is below it, the estimate otherwise. -/
def settledFee (e minFee : Int) : Int := if e < minFee then minFee else e

/-- The result of the lookup number `k` (counted from 0) of a polling run that
starts in client state `s`, with the client state after it. -/
def lookupAt {σ : Type} (tr : Transactor σ) (tx : Transaction) : σ → Nat →
    (Option Transaction × Option Error) × σ
  | s, 0 => tr.Client.GetTransaction s tx.Hash
  | s, k + 1 => lookupAt tr tx (tr.Client.GetTransaction s tx.Hash).2 k

/-- The client `c` with every error of its transaction lookup replaced by a
nil error; receipts and states are those of `c`. -/
def dropLookupErrors {σ : Type} (c : ClientCaller σ) : ClientCaller σ :=
  { c with GetTransaction := fun s txID =>
      (((c.GetTransaction s txID).1.1, none), (c.GetTransaction s txID).2) }

/-- A node that counts the lookups it has served and answers lookup number
`k` with `script k`. -/
def scriptedClient (script : Nat → Option Transaction × Option Error) : ClientCaller Nat where
  TxAnchor := fun s => (("anchor", none), s)
  LastTransaction := fun s _ => (("", none), s)
  GetReward := fun s _ _ => (("0", none), s)
  Commit := fun s _ => (("OK", none), s)
  GetTransaction := fun s _ => (script s, s + 1)

/-- A mined transaction, as a node returns it. -/
def exampleReceipt : Transaction :=
  { NewTransaction "anchor" 65537 "950" "target" [] "50" with id := "tx-1", signature := [7] }

/-- A node's answers to three lookups: an error, then nothing at all, then the
receipt together with an error. -/
def exampleScript : Nat → Option Transaction × Option Error
  | 0 => (none, some (.external "not found"))
  | 1 => (none, none)
  | _ => (some exampleReceipt, some (.external "late"))

/-- A context that is open during the first three waits and cancelled from
the fourth on; the runtime takes the `Done` case when both are ready. -/
def cancelledFrom3 (i : Nat) : SelectEnv :=
  if i < 3 then ⟨none, false⟩ else ⟨some .canceled, false⟩

/-- A context that is open during the first wait and cancelled from the
second on; the runtime takes the ready ticker at the second `select` and the
`Done` case at the third. -/
def cancelledFrom1 (i : Nat) : SelectEnv :=
  if i < 1 then ⟨none, false⟩ else ⟨some .canceled, decide (i < 2)⟩

/-- A context that is cancelled from the first wait on, with a ticker that
is ready at each of the first four `select`s and taken there by the runtime. -/
def cancelledRace (i : Nat) : SelectEnv := ⟨some .canceled, decide (i < 4)⟩

/-- One unsuccessful iteration of the loop: the world after the lookup and
the diagnostic line. -/
def afterFailedPoll {σ : Type} (tr : Transactor σ) (tx : Transaction) (wd : World σ) : World σ :=
  match (callGetTransaction tr.Client wd tx.Hash).1.2 with
  | some e => printLine (callGetTransaction tr.Client wd tx.Hash).2 (.errorRetrieving e)
  | none => printLine (callGetTransaction tr.Client wd tx.Hash).2 .notYetMined

/-! ## Decimal strings: formatting and parsing agree -/

theorem digitChar_isDigit :
    ∀ k, k < 10 → (Nat.digitChar k).isDigit = true ∧ (Nat.digitChar k).toNat - 48 = k := by
  decide

theorem ParseUintLoop_digit (k : Nat) (hk : k < 10) (ds : List Char) (n : Nat)
    (hn : n * 10 + k ≤ maxUint64) :
    ParseUintLoop (Nat.digitChar k :: ds) n = ParseUintLoop ds (n * 10 + k) := by
  obtain ⟨h1, h2⟩ := digitChar_isDigit k hk
  have h3 : ¬ n ≥ maxUint64 / 10 + 1 := by
    simp only [maxUint64] at hn ⊢
    omega
  have h4 : ¬ n * 10 + k > maxUint64 := by omega
  simp only [ParseUintLoop, h1, h2, h3, h4, if_true, if_false]

theorem ParseUintLoop_toDigitsCore : ∀ (fuel n : Nat) (ds : List Char), n < fuel →
    n ≤ maxUint64 → ParseUintLoop (Nat.toDigitsCore 10 fuel n ds) 0 = ParseUintLoop ds n := by
  intro fuel
  induction fuel with
  | zero => intro n ds h; omega
  | succ fuel ih =>
    intro n ds hlt hle
    have hmod : n % 10 < 10 := Nat.mod_lt _ (by decide)
    simp only [Nat.toDigitsCore]
    split
    · have hn : 0 * 10 + n % 10 = n := by omega
      rw [ParseUintLoop_digit _ hmod _ _ (by omega), hn]
    · have hn : n / 10 * 10 + n % 10 = n := by omega
      rw [ih (n / 10) _ (by omega) (by omega), ParseUintLoop_digit _ hmod _ _ (by omega), hn]

theorem ParseUintLoop_repr (n : Nat) (hn : n ≤ maxUint64) :
    ParseUintLoop (Nat.repr n).data 0 = (n, none) := by
  have h := ParseUintLoop_toDigitsCore (n + 1) n [] (by omega) hn
  simpa [Nat.repr, Nat.toDigits, List.asString, ParseUintLoop] using h

theorem repr_data_ne_nil (n : Nat) (hn : n ≤ maxUint64) : (Nat.repr n).data ≠ [] := by
  intro h
  have h1 := ParseUintLoop_repr n hn
  rw [h] at h1
  simp only [ParseUintLoop, Prod.mk.injEq, and_true] at h1
  subst h1
  revert h
  decide

/-- Parsing the decimal string of a `uint64` gives the number back. -/
theorem ParseUint_repr (n : Nat) (hn : n ≤ maxUint64) : ParseUint (Nat.repr n) = (n, none) := by
  have h1 : Nat.repr n ≠ "" := by
    intro h
    apply repr_data_ne_nil n hn
    rw [h]
  simp only [ParseUint, h1, if_false]
  exact ParseUintLoop_repr n hn

theorem wrapInt64_of_isInt64 (x : Int) (hx : isInt64 x) : wrapInt64 x = x := by
  simp only [isInt64, minInt64, maxInt64] at hx
  simp only [wrapInt64]
  omega

theorem ParseInt_repr (n : Nat) (hn : (n : Int) ≤ maxInt64) :
    ParseInt (Nat.repr n) = ((n : Int), none) := by
  have hn1 : n ≤ 2 ^ 63 - 1 := by
    simp only [maxInt64] at hn
    omega
  have hpu := ParseUint_repr n (by simp only [maxUint64]; omega)
  have hne := repr_data_ne_nil n (by simp only [maxUint64]; omega)
  rcases hd : (Nat.repr n).data with _ | ⟨c, rest⟩
  · exact absurd hd hne
  · have hloop := ParseUintLoop_repr n (by simp only [maxUint64]; omega)
    rw [hd] at hloop
    have hc : c.isDigit = true := by
      by_contra hc
      simp [ParseUintLoop, hc] at hloop
    have hplus : c ≠ '+' := by
      rintro rfl
      revert hc
      decide
    have hminus : c ≠ '-' := by
      rintro rfl
      revert hc
      decide
    have hlt : ¬ n ≥ 2 ^ 63 := by omega
    have hw : wrapInt64 (n : Int) = (n : Int) := by
      simp only [wrapInt64]
      omega
    simp [ParseInt, hd, hplus, hminus, hpu]
    rw [if_neg (by omega), hw]

/-- Parsing the decimal string of an `int64` gives the number back. -/
theorem ParseInt_fmtD (x : Int) (hx : isInt64 x) : ParseInt (fmtD x) = (x, none) := by
  simp only [isInt64, minInt64, maxInt64] at hx
  by_cases hneg : x < 0
  · have hm : x.natAbs ≤ 2 ^ 63 := by omega
    have hpu := ParseUint_repr x.natAbs (by simp only [maxUint64]; omega)
    have hd : ("-" ++ Nat.repr x.natAbs).data = '-' :: (Nat.repr x.natAbs).data := by
      simp [String.data_append]
    have hbody : String.mk (Nat.repr x.natAbs).data = Nat.repr x.natAbs := rfl
    have hgt : ¬ x.natAbs > 2 ^ 63 := by omega
    have hw : wrapInt64 (-wrapInt64 |x|) = x := by
      rw [abs_of_neg hneg]
      simp only [wrapInt64]
      omega
    simp [fmtD, hneg, ParseInt, hd, hbody, hpu]
    rw [if_neg (by omega), hw]
  · have hx0 : ((x.natAbs : Nat) : Int) = x := by omega
    have h := ParseInt_repr x.natAbs (by simp only [maxInt64]; omega)
    rw [hx0] at h
    simp only [fmtD, hneg, if_false]
    exact h

theorem wrapInt64_isInt64 (x : Int) : isInt64 (wrapInt64 x) := by
  simp only [isInt64, minInt64, maxInt64, wrapInt64]
  omega

/-- A successful `ParseInt` yields a value of the `int64` range. -/
theorem ParseInt_isInt64 (s : String) (a : Int) (h : ParseInt s = (a, none)) : isInt64 a := by
  unfold ParseInt at h
  split at h
  · simp at h
  · simp only at h
    split_ifs at h <;>
      first
      | (simp only [Prod.mk.injEq, and_true] at h
         subst h
         exact wrapInt64_isInt64 _)
      | simp at h

/-- The decimal strings of two different `int64` values differ. -/
theorem fmtD_injective (x y : Int) (hx : isInt64 x) (hy : isInt64 y) (h : fmtD x = fmtD y) :
    x = y := by
  have h1 := ParseInt_fmtD x hx
  have h2 := ParseInt_fmtD y hy
  rw [h, h2] at h1
  simpa using h1.symm

/-! ## The shape of the two constructors -/

theorem CreateTransactionWithFee_fst {σ : Type} (tr : Transactor σ) (wd : World σ)
    (w : WalletSigner) (amount : String) (data : Bytes) (target : String) (fee : Int)
    (includeFee : Bool) (lastTx : String)
    (ha : (tr.Client.TxAnchor wd.state).1 = (lastTx, none)) :
    (CreateTransactionWithFee tr wd w amount data target fee includeFee).1 =
      assembled lastTx w amount data target fee includeFee := by
  rcases hA : tr.Client.TxAnchor wd.state with ⟨⟨l, aerr⟩, s1⟩
  rw [hA] at ha
  simp only [Prod.mk.injEq] at ha
  obtain ⟨rfl, rfl⟩ := ha
  simp only [CreateTransactionWithFee, callTxAnchor, hA, assembled]
  cases includeFee
  · simp
  · rcases hP : ParseInt amount with ⟨a, _ | e⟩ <;> simp

theorem CreateTransaction_fst {σ : Type} (tr : Transactor σ) (wd : World σ)
    (w : WalletSigner) (amount : String) (data : Bytes) (target : String)
    (minFee maxFee : Int) (includeFee : Bool) (lastTx price : String) (e : Int)
    (ha : (tr.Client.TxAnchor wd.state).1 = (lastTx, none))
    (hr : (tr.Client.GetReward (tr.Client.TxAnchor wd.state).2 data target).1 = (price, none))
    (hp : ParseInt price = (e, none)) :
    (CreateTransaction tr wd w amount data target minFee maxFee includeFee).1 =
      if e < minFee then assembled lastTx w amount data target minFee includeFee
      else if e > maxFee then (none, some (feeExceedsLimit maxFee))
      else assembled lastTx w amount data target e includeFee := by
  rcases hA : tr.Client.TxAnchor wd.state with ⟨⟨l, aerr⟩, s1⟩
  rw [hA] at ha hr
  simp only [Prod.mk.injEq] at ha
  obtain ⟨rfl, rfl⟩ := ha
  rcases hR : tr.Client.GetReward s1 data target with ⟨⟨p, rerr⟩, s2⟩
  rw [hR] at hr
  simp only [Prod.mk.injEq] at hr
  obtain ⟨rfl, rfl⟩ := hr
  simp only [CreateTransaction, callTxAnchor, callGetReward, hA, hR, hp, assembled]
  by_cases h1 : e < minFee <;> by_cases h2 : e > maxFee <;> cases includeFee <;>
    rcases hP : ParseInt amount with ⟨a, _ | e⟩ <;> simp [h1, h2]

/-- When `CreateTransaction` returns a transaction, the anchor fetch and the
fee query succeeded and the estimate parsed. -/
theorem CreateTransaction_some {σ : Type} (tr : Transactor σ) (wd : World σ)
    (w : WalletSigner) (amount : String) (data : Bytes) (target : String)
    (minFee maxFee : Int) (includeFee : Bool) (t : Transaction)
    (h : (CreateTransaction tr wd w amount data target minFee maxFee includeFee).1.1 = some t) :
    ∃ lastTx price e, (tr.Client.TxAnchor wd.state).1 = (lastTx, none) ∧
      (tr.Client.GetReward (tr.Client.TxAnchor wd.state).2 data target).1 = (price, none) ∧
      ParseInt price = (e, none) := by
  rcases hA : tr.Client.TxAnchor wd.state with ⟨⟨l, _ | aerr⟩, s1⟩
  · rcases hR : tr.Client.GetReward s1 data target with ⟨⟨p, _ | rerr⟩, s2⟩
    · rcases hP : ParseInt p with ⟨e, _ | perr⟩
      · exact ⟨l, p, e, rfl, rfl, hP⟩
      · simp [CreateTransaction, callTxAnchor, callGetReward, hA, hR, hP] at h
    · simp [CreateTransaction, callTxAnchor, callGetReward, hA, hR] at h
  · simp [CreateTransaction, callTxAnchor, hA] at h

theorem assembled_some (lastTx : String) (w : WalletSigner) (amount : String) (data : Bytes)
    (target : String) (fee : Int) (includeFee : Bool) (t : Transaction)
    (h : (assembled lastTx w amount data target fee includeFee).1 = some t) :
    t.fee = fmtD fee ∧ t.anchor = lastTx ∧ t.owner = w.PubKeyModulus ∧ t.target = target ∧
      t.data = data ∧ t.signature = [] ∧
      assembled lastTx w amount data target fee includeFee = (some t, none) := by
  unfold assembled at h ⊢
  cases includeFee
  · simp only [Bool.false_eq_true, if_false, Option.some.injEq] at h ⊢
    subst h
    simp [NewTransaction]
  · rcases hP : ParseInt amount with ⟨a, _ | e⟩
    · simp only [hP, if_true, Option.some.injEq] at h ⊢
      subst h
      simp [NewTransaction]
    · simp [hP] at h

/-! ## The fee policy of CreateTransaction -/

theorem estimateIs_anchor {σ : Type} {tr : Transactor σ} {wd : World σ} {data : Bytes}
    {target : String} {price : String} {e : Int} (h : estimateIs tr wd data target price e) :
    ∃ lastTx, (tr.Client.TxAnchor wd.state).1 = (lastTx, none) := by
  obtain ⟨ha, _, _⟩ := h
  rcases hA : tr.Client.TxAnchor wd.state with ⟨⟨l, aerr⟩, s1⟩
  rw [hA] at ha
  simp only at ha
  subst ha
  exact ⟨l, rfl⟩

/-- C1, as amended. For every estimate `e` and bounds `minFee`, `maxFee`, with
the anchor fetch and the fee query succeeding and the estimate parsing as `e`:
if `e > maxFee` and `e` is not below `minFee`, `CreateTransaction` fails with
the fee-exceeds-limit error and returns no transaction. -/
theorem CreateTransaction_fee_exceeds_limit {σ : Type} (tr : Transactor σ) (wd : World σ)
    (w : WalletSigner) (amount : String) (data : Bytes) (target : String)
    (minFee maxFee : Int) (includeFee : Bool) (price : String) (e : Int)
    (hq : estimateIs tr wd data target price e) (hmin : minFee ≤ e) (hmax : e > maxFee) :
    (CreateTransaction tr wd w amount data target minFee maxFee includeFee).1 =
      (none, some (feeExceedsLimit maxFee)) := by
  obtain ⟨lastTx, ha⟩ := estimateIs_anchor hq
  rw [CreateTransaction_fst tr wd w amount data target minFee maxFee includeFee lastTx price e
    ha hq.2.1 hq.2.2]
  rw [if_neg (by omega), if_pos hmax]

/-- The spec's example for C1: amount "1000", estimate "500", ceiling 100. -/
theorem CreateTransaction_fee_exceeds_limit_witness :
    estimateIs (fixedTransactor "anchor" "500") (World.init ()) [] "target" "500" 500 ∧
    (CreateTransaction (fixedTransactor "anchor" "500") (World.init ()) someSigner "1000" []
      "target" 10 100 true).1 = (none, some (feeExceedsLimit 100)) :=
  ⟨⟨rfl, rfl, by decide⟩,
   CreateTransaction_fee_exceeds_limit (fixedTransactor "anchor" "500") (World.init ())
     someSigner "1000" [] "target" 10 100 true "500" 500 ⟨rfl, rfl, by decide⟩
     (by decide) (by decide)⟩

/-- C1 as stated fails: with the estimate 50, the floor 100 and the ceiling 10
the estimate exceeds the ceiling, yet `CreateTransaction` returns a
transaction, of fee "100", and no error. -/
theorem CreateTransaction_above_ceiling_below_floor :
    estimateIs (fixedTransactor "anchor" "50") (World.init ()) [] "target" "50" 50 ∧
    (50 : Int) > 10 ∧
    (CreateTransaction (fixedTransactor "anchor" "50") (World.init ()) someSigner "1000" []
      "target" 100 10 false).1 =
      (some (NewTransaction "anchor" 65537 "1000" "target" [] "100"), none) :=
  ⟨⟨rfl, rfl, by decide⟩, by decide, by decide⟩

/-- When `CreateTransaction` returns a transaction, the estimate was not
rejected and the transaction is the one assembled with the settled fee. -/
theorem CreateTransaction_settled {σ : Type} (tr : Transactor σ) (wd : World σ)
    (w : WalletSigner) (amount : String) (data : Bytes) (target : String)
    (minFee maxFee : Int) (includeFee : Bool) (t : Transaction)
    (h : (CreateTransaction tr wd w amount data target minFee maxFee includeFee).1.1 = some t) :
    ∃ lastTx price e, (tr.Client.TxAnchor wd.state).1 = (lastTx, none) ∧
      (tr.Client.GetReward (tr.Client.TxAnchor wd.state).2 data target).1 = (price, none) ∧
      ParseInt price = (e, none) ∧ (e < minFee ∨ e ≤ maxFee) ∧
      assembled lastTx w amount data target (settledFee e minFee) includeFee = (some t, none) := by
  obtain ⟨lastTx, price, e, ha, hr, hp⟩ :=
    CreateTransaction_some tr wd w amount data target minFee maxFee includeFee t h
  refine ⟨lastTx, price, e, ha, hr, hp, ?_⟩
  rw [CreateTransaction_fst tr wd w amount data target minFee maxFee includeFee lastTx price e
    ha hr hp] at h
  by_cases h1 : e < minFee
  · rw [if_pos h1] at h
    refine ⟨Or.inl h1, ?_⟩
    simp only [settledFee, if_pos h1]
    exact (assembled_some _ _ _ _ _ _ _ _ h).2.2.2.2.2.2
  · rw [if_neg h1] at h
    by_cases h2 : e > maxFee
    · rw [if_pos h2] at h
      simp at h
    · rw [if_neg h2] at h
      refine ⟨Or.inr (by omega), ?_⟩
      simp only [settledFee, if_neg h1]
      exact (assembled_some _ _ _ _ _ _ _ _ h).2.2.2.2.2.2

/-- C2, as amended. Whenever `CreateTransaction` returns a transaction, its fee
field is the decimal string of an integer `f`, and parses back to `f`, with
`minFee ≤ f`, and with `f ≤ maxFee` provided the bounds are consistent
(`minFee ≤ maxFee`). -/
theorem CreateTransaction_fee_within_bounds {σ : Type} (tr : Transactor σ) (wd : World σ)
    (w : WalletSigner) (amount : String) (data : Bytes) (target : String)
    (minFee maxFee : Int) (includeFee : Bool) (t : Transaction) (hmin : isInt64 minFee)
    (h : (CreateTransaction tr wd w amount data target minFee maxFee includeFee).1.1 = some t) :
    ∃ f, t.fee = fmtD f ∧ ParseInt t.fee = (f, none) ∧ minFee ≤ f ∧
      (minFee ≤ maxFee → f ≤ maxFee) := by
  obtain ⟨lastTx, price, e, _, _, hp, hok, hasm⟩ :=
    CreateTransaction_settled tr wd w amount data target minFee maxFee includeFee t h
  have hfee := (assembled_some _ _ _ _ _ _ _ t (by rw [hasm])).1
  have he := ParseInt_isInt64 price e hp
  refine ⟨settledFee e minFee, hfee, ?_, ?_, ?_⟩
  · rw [hfee]
    apply ParseInt_fmtD
    unfold settledFee
    split
    · exact hmin
    · exact he
  · unfold settledFee
    split <;> omega
  · intro hb
    unfold settledFee
    split <;> omega

/-- An instance of C2 as amended: estimate "5", floor 10, ceiling 100. -/
theorem CreateTransaction_fee_within_bounds_witness :
    isInt64 10 ∧
    (CreateTransaction (fixedTransactor "anchor" "5") (World.init ()) someSigner "1000" []
      "target" 10 100 false).1.1 = some (NewTransaction "anchor" 65537 "1000" "target" [] "10") ∧
    ∃ f, (NewTransaction "anchor" 65537 "1000" "target" [] "10").fee = fmtD f ∧
      ParseInt (NewTransaction "anchor" 65537 "1000" "target" [] "10").fee = (f, none) ∧
      (10 : Int) ≤ f ∧ ((10 : Int) ≤ 100 → f ≤ 100) :=
  ⟨by decide, by decide,
   CreateTransaction_fee_within_bounds (fixedTransactor "anchor" "5") (World.init ())
     someSigner "1000" [] "target" 10 100 false
     (NewTransaction "anchor" 65537 "1000" "target" [] "10") (by decide) (by decide)⟩

/-- C2 as stated fails: with the estimate 5, the floor 20 and the ceiling 10
`CreateTransaction` returns a transaction whose fee is 20, above the
ceiling. -/
theorem CreateTransaction_fee_above_ceiling :
    (CreateTransaction (fixedTransactor "anchor" "5") (World.init ()) someSigner "1000" []
      "target" 20 10 false).1 =
      (some (NewTransaction "anchor" 65537 "1000" "target" [] "20"), none) ∧
    ParseInt (NewTransaction "anchor" 65537 "1000" "target" [] "20").fee = (20, none) ∧
    ¬ ((20 : Int) ≤ 20 ∧ (20 : Int) ≤ 10) :=
  ⟨by decide, by decide, by decide⟩

/-- C3. For every estimate `e` and bounds for which `CreateTransaction`
returns a transaction: the fee field is the decimal string of `e` when
`minFee ≤ e ≤ maxFee`, and the decimal string of `minFee` when `e < minFee`. -/
theorem CreateTransaction_fee_value {σ : Type} (tr : Transactor σ) (wd : World σ)
    (w : WalletSigner) (amount : String) (data : Bytes) (target : String)
    (minFee maxFee : Int) (includeFee : Bool) (price : String) (e : Int) (t : Transaction)
    (hq : estimateIs tr wd data target price e)
    (h : (CreateTransaction tr wd w amount data target minFee maxFee includeFee).1.1 = some t) :
    (minFee ≤ e ∧ e ≤ maxFee → t.fee = fmtD e) ∧ (e < minFee → t.fee = fmtD minFee) := by
  obtain ⟨lastTx, ha⟩ := estimateIs_anchor hq
  rw [CreateTransaction_fst tr wd w amount data target minFee maxFee includeFee lastTx price e
    ha hq.2.1 hq.2.2] at h
  constructor
  · rintro ⟨h1, h2⟩
    rw [if_neg (by omega), if_neg (by omega)] at h
    exact (assembled_some _ _ _ _ _ _ _ _ h).1
  · intro h1
    rw [if_pos h1] at h
    exact (assembled_some _ _ _ _ _ _ _ _ h).1

/-- Two instances of C3: the estimate "50" between the bounds 10 and 100 is
kept, the estimate "5" below the floor 10 is raised to it. -/
theorem CreateTransaction_fee_value_witness :
    ((NewTransaction "anchor" 65537 "1000" "target" [] "50").fee = fmtD 50) ∧
    ((NewTransaction "anchor" 65537 "1000" "target" [] "10").fee = fmtD 10) :=
  ⟨(CreateTransaction_fee_value (fixedTransactor "anchor" "50") (World.init ())
      someSigner "1000" [] "target" 10 100 false "50" 50
      (NewTransaction "anchor" 65537 "1000" "target" [] "50")
      ⟨rfl, rfl, by decide⟩ (by decide)).1 ⟨by decide, by decide⟩,
   (CreateTransaction_fee_value (fixedTransactor "anchor" "5") (World.init ())
      someSigner "1000" [] "target" 10 100 false "5" 5
      (NewTransaction "anchor" 65537 "1000" "target" [] "10")
      ⟨rfl, rfl, by decide⟩ (by decide)).2 (by decide)⟩

/-! ## The includeFee adjustment -/

/-- C4, as amended. The decimal string of every integer of the `int64` range
is an amount `strconv.ParseInt` accepts, with that integer as value. With
`includeFee = true`, for every amount string that `strconv.ParseInt` accepts,
`a` being its value, and every settled fee `f` for which `a - f` lies in the
`int64` range: `CreateTransactionWithFee` with the fee `f`, and
`CreateTransaction` whenever it settles on the fee `f`, return the
transaction whose amount field is the decimal string of the exact integer
`a - f` and whose fee field is the decimal string of `f`; the amount field
parses back to `a - f`. -/
theorem includeFee_amount_exact {σ : Type} (tr : Transactor σ) (wd : World σ)
    (w : WalletSigner) (amount : String) (data : Bytes) (target : String) (a f : Int)
    (lastTx : String) (ha : (tr.Client.TxAnchor wd.state).1 = (lastTx, none))
    (hp : ParseInt amount = (a, none)) (hr : isInt64 (a - f)) :
    (∀ x : Int, isInt64 x → ParseInt (fmtD x) = (x, none)) ∧
    (CreateTransactionWithFee tr wd w amount data target f true).1 =
      (some (NewTransaction lastTx w.PubKeyModulus (fmtD (a - f)) target data (fmtD f)), none) ∧
    ParseInt (fmtD (a - f)) = (a - f, none) ∧
    (∀ (minFee maxFee : Int) (price : String) (e : Int),
      (tr.Client.GetReward (tr.Client.TxAnchor wd.state).2 data target).1 = (price, none) →
      ParseInt price = (e, none) → (e < minFee ∨ e ≤ maxFee) → settledFee e minFee = f →
      (CreateTransaction tr wd w amount data target minFee maxFee true).1 =
        (some (NewTransaction lastTx w.PubKeyModulus (fmtD (a - f)) target data (fmtD f)),
          none)) := by
  have hasm : assembled lastTx w amount data target f true =
      (some (NewTransaction lastTx w.PubKeyModulus (fmtD (a - f)) target data (fmtD f)),
        none) := by
    simp [assembled, hp, wrapInt64_of_isInt64 _ hr]
  refine ⟨ParseInt_fmtD, ?_, ParseInt_fmtD _ hr, ?_⟩
  · rw [CreateTransactionWithFee_fst tr wd w amount data target f true lastTx ha, hasm]
  · intro minFee maxFee price e hq hpe hok hf
    rw [CreateTransaction_fst tr wd w amount data target minFee maxFee true lastTx price e
      ha hq hpe]
    unfold settledFee at hf
    by_cases h1 : e < minFee
    · rw [if_pos h1] at hf ⊢
      rw [hf, hasm]
    · rw [if_neg h1] at hf ⊢
      rw [if_neg (by omega), hf, hasm]

/-- The spec's example for C4: amount "1000", estimate "50", floor 10, ceiling
100 and `includeFee` give the amount "950" and the fee "50". -/
theorem includeFee_amount_exact_witness :
    ParseInt "1000" = (1000, none) ∧ isInt64 (1000 - 50) ∧
    (CreateTransaction (fixedTransactor "anchor" "50") (World.init ()) someSigner "1000" []
      "target" 10 100 true).1 =
      (some (NewTransaction "anchor" 65537 "950" "target" [] "50"), none) :=
  ⟨by decide, by decide,
   (includeFee_amount_exact (fixedTransactor "anchor" "50") (World.init ()) someSigner "1000" []
      "target" 1000 50 "anchor" rfl (by decide) (by decide)).2.2.2 10 100 "50" 50 rfl
      (by decide) (by decide) (by decide)⟩

/-- C4 as stated fails. The amount "9223372036854775808" is the decimal
encoding of the integer 2^63, yet both constructors reject it with a range
error; and for the amount "-9223372036854775808" and the fee 50 the
difference leaves the 64-bit range and wraps around to
9223372036854775758. -/
theorem includeFee_amount_beyond_int64 :
    fmtD (2 ^ 63) = "9223372036854775808" ∧
    (CreateTransaction (fixedTransactor "anchor" "50") (World.init ()) someSigner
      "9223372036854775808" [] "target" 10 100 true).1 =
      (none, some (.numError "ParseInt" "9223372036854775808" .rangeErr)) ∧
    (CreateTransactionWithFee (fixedTransactor "anchor" "50") (World.init ()) someSigner
      "9223372036854775808" [] "target" 50 true).1 =
      (none, some (.numError "ParseInt" "9223372036854775808" .rangeErr)) ∧
    fmtD (-(2 ^ 63)) = "-9223372036854775808" ∧
    (CreateTransactionWithFee (fixedTransactor "anchor" "50") (World.init ()) someSigner
      "-9223372036854775808" [] "target" 50 true).1 =
      (some (NewTransaction "anchor" 65537 "9223372036854775758" "target" [] "50"), none) ∧
    fmtD (-(2 ^ 63) - 50) ≠ "9223372036854775758" :=
  ⟨by decide, by decide, by decide, by decide, by decide, by decide⟩

/-! ## The explicit-fee constructor against the estimating one -/

theorem assembled_error_independent (lastTx : String) (w : WalletSigner) (amount : String)
    (data : Bytes) (target : String) (fee fee' : Int) (includeFee : Bool) :
    (assembled lastTx w amount data target fee includeFee).2 =
      (assembled lastTx w amount data target fee' includeFee).2 := by
  unfold assembled
  cases includeFee
  · simp
  · rcases hP : ParseInt amount with ⟨a, _ | e⟩ <;> simp

theorem CreateTransactionWithFee_calls {σ : Type} (tr : Transactor σ) (wd : World σ)
    (w : WalletSigner) (amount : String) (data : Bytes) (target : String) (fee : Int)
    (includeFee : Bool) :
    (CreateTransactionWithFee tr wd w amount data target fee includeFee).2.calls =
      wd.calls ++ [Call.TxAnchor] := by
  rcases hA : tr.Client.TxAnchor wd.state with ⟨⟨l, _ | aerr⟩, s1⟩
  · cases includeFee
    · simp [CreateTransactionWithFee, callTxAnchor, hA]
    · rcases hP : ParseInt amount with ⟨a, _ | e⟩ <;>
        simp [CreateTransactionWithFee, callTxAnchor, hA, hP]
  · simp [CreateTransactionWithFee, callTxAnchor, hA]

/-- C8. `CreateTransactionWithFee` applies the `includeFee` adjustment as
`CreateTransaction` does and enforces no bound on the fee: (1) whenever
`CreateTransaction` returns a transaction `t`, `CreateTransactionWithFee`
called on the same client state with the same signer, amount, data, target
and `includeFee`, and with the `int64` fee `f` whose decimal string is the fee
of `t`, returns `t`; (2) the error `CreateTransactionWithFee` returns, if any,
is the same for every two values of the fee; (3) for every fee, the only call
it makes on the client is the anchor fetch, so it never queries the fee
estimate. -/
theorem CreateTransactionWithFee_agrees {σ : Type} (tr : Transactor σ) (wd : World σ)
    (w : WalletSigner) (amount : String) (data : Bytes) (target : String)
    (includeFee : Bool) :
    (∀ (minFee maxFee : Int) (t : Transaction) (f : Int), isInt64 minFee → isInt64 f →
      (CreateTransaction tr wd w amount data target minFee maxFee includeFee).1.1 = some t →
      t.fee = fmtD f →
      (CreateTransactionWithFee tr wd w amount data target f includeFee).1 = (some t, none)) ∧
    (∀ fee fee' : Int,
      (CreateTransactionWithFee tr wd w amount data target fee includeFee).1.2 =
        (CreateTransactionWithFee tr wd w amount data target fee' includeFee).1.2) ∧
    (∀ fee : Int,
      (CreateTransactionWithFee tr wd w amount data target fee includeFee).2.calls =
        wd.calls ++ [Call.TxAnchor]) := by
  refine ⟨?_, ?_, ?_⟩
  · intro minFee maxFee t f hmin hf h hfee
    obtain ⟨lastTx, price, e, ha, _, hp, _, hasm⟩ :=
      CreateTransaction_settled tr wd w amount data target minFee maxFee includeFee t h
    have hfee2 := (assembled_some _ _ _ _ _ _ _ t (by rw [hasm])).1
    have hs : isInt64 (settledFee e minFee) := by
      unfold settledFee
      split
      · exact hmin
      · exact ParseInt_isInt64 price e hp
    have heq : f = settledFee e minFee := fmtD_injective _ _ hf hs (by rw [← hfee, hfee2])
    rw [CreateTransactionWithFee_fst tr wd w amount data target f includeFee lastTx ha, heq, hasm]
  · intro fee fee'
    rcases hA : tr.Client.TxAnchor wd.state with ⟨⟨l, _ | aerr⟩, s1⟩
    · have ha : (tr.Client.TxAnchor wd.state).1 = (l, none) := by rw [hA]
      rw [CreateTransactionWithFee_fst tr wd w amount data target fee includeFee l ha,
        CreateTransactionWithFee_fst tr wd w amount data target fee' includeFee l ha]
      exact assembled_error_independent _ _ _ _ _ _ _ _
    · simp [CreateTransactionWithFee, callTxAnchor, hA]
  · intro fee
    exact CreateTransactionWithFee_calls tr wd w amount data target fee includeFee

/-- An instance of C8: where `CreateTransaction` settles on the fee 50 for the
amount "1000" with `includeFee`, `CreateTransactionWithFee` with the fee 50
returns the same transaction. -/
theorem CreateTransactionWithFee_agrees_witness :
    (CreateTransaction (fixedTransactor "anchor" "50") (World.init ()) someSigner "1000" []
      "target" 10 100 true).1.1 = some (NewTransaction "anchor" 65537 "950" "target" [] "50") ∧
    (CreateTransactionWithFee (fixedTransactor "anchor" "50") (World.init ()) someSigner "1000"
      [] "target" 50 true).1 = (some (NewTransaction "anchor" 65537 "950" "target" [] "50"), none) :=
  ⟨by decide,
   (CreateTransactionWithFee_agrees (fixedTransactor "anchor" "50") (World.init ()) someSigner
      "1000" [] "target" true).1 10 100 (NewTransaction "anchor" 65537 "950" "target" [] "50") 50
      (by decide) (by decide) (by decide) (by decide)⟩

/-! ## The polling loop -/

theorem afterFailedPoll_state {σ : Type} (tr : Transactor σ) (tx : Transaction) (wd : World σ) :
    (afterFailedPoll tr tx wd).state = (tr.Client.GetTransaction wd.state tx.Hash).2 ∧
    (afterFailedPoll tr tx wd).calls = wd.calls ++ [Call.GetTransaction tx.Hash] := by
  unfold afterFailedPoll
  split <;> simp [printLine, callGetTransaction]

/-- An iteration whose lookup yields a receipt returns it. -/
theorem WaitMined_receipt {σ : Type} (tr : Transactor σ) (ctx : Nat → SelectEnv)
    (tx : Transaction) (fuel i : Nat) (wd : World σ) (r : Transaction)
    (h : (tr.Client.GetTransaction wd.state tx.Hash).1.1 = some r) :
    WaitMined tr ctx tx (fuel + 1) i wd =
      some ((some r, none), (callGetTransaction tr.Client wd tx.Hash).2) := by
  rcases hG : tr.Client.GetTransaction wd.state tx.Hash with ⟨⟨rc, err⟩, s1⟩
  rw [hG] at h
  simp only at h
  subst h
  simp [WaitMined, callGetTransaction, hG]

/-- An iteration whose lookup yields no receipt ends in the `select`. -/
theorem WaitMined_no_receipt {σ : Type} (tr : Transactor σ) (ctx : Nat → SelectEnv)
    (tx : Transaction) (fuel i : Nat) (wd : World σ)
    (h : (tr.Client.GetTransaction wd.state tx.Hash).1.1 = none) :
    WaitMined tr ctx tx (fuel + 1) i wd =
      match selectOutcome (ctx i) with
      | some e => some ((none, some e), afterFailedPoll tr tx wd)
      | none => WaitMined tr ctx tx fuel (i + 1) (afterFailedPoll tr tx wd) := by
  rcases hG : tr.Client.GetTransaction wd.state tx.Hash with ⟨⟨rc, err⟩, s1⟩
  rw [hG] at h
  simp only at h
  subst h
  cases err <;> simp [WaitMined, afterFailedPoll, callGetTransaction, hG]

theorem selectOutcome_some (env : SelectEnv) (e : Error) (h : selectOutcome env = some e) :
    env.ctxErr = some e := by
  unfold selectOutcome at h
  rcases hc : env.ctxErr with _ | e'
  · simp [hc] at h
  · rw [hc] at h
    simp only at h
    split at h
    · simp at h
    · exact h

theorem selectOutcome_open (env : SelectEnv) (h : env.ctxErr = none) :
    selectOutcome env = none := by
  simp [selectOutcome, h]

theorem WaitMined_reaches_receipt {σ : Type} (tr : Transactor σ) (ctx : Nat → SelectEnv)
    (tx : Transaction) (r : Transaction) :
    ∀ (k : Nat) (wd : World σ) (i fuel : Nat),
      (∀ j, j < k → (lookupAt tr tx wd.state j).1.1 = none ∧ selectOutcome (ctx (i + j)) = none) →
      (lookupAt tr tx wd.state k).1.1 = some r → k < fuel →
      ∃ wd', WaitMined tr ctx tx fuel i wd = some ((some r, none), wd') ∧
        wd'.calls = wd.calls ++ List.replicate (k + 1) (Call.GetTransaction tx.Hash) ∧
        wd'.state = (lookupAt tr tx wd.state k).2 := by
  intro k
  induction k with
  | zero =>
    intro wd i fuel _ hr hf
    obtain ⟨f, rfl⟩ : ∃ f, fuel = f + 1 := ⟨fuel - 1, by omega⟩
    simp only [lookupAt] at hr
    refine ⟨_, WaitMined_receipt tr ctx tx f i wd r hr, ?_, ?_⟩
    · simp [callGetTransaction]
    · simp [callGetTransaction, lookupAt]
  | succ k ih =>
    intro wd i fuel hnone hr hf
    obtain ⟨f, rfl⟩ : ∃ f, fuel = f + 1 := ⟨fuel - 1, by omega⟩
    have h0 := hnone 0 (by omega)
    simp only [lookupAt, Nat.add_zero] at h0
    obtain ⟨hs, hc⟩ := afterFailedPoll_state tr tx wd
    have hstep := WaitMined_no_receipt tr ctx tx f i wd h0.1
    rw [h0.2] at hstep
    simp only at hstep
    obtain ⟨wd', hw, hcalls, hstate⟩ := ih (afterFailedPoll tr tx wd) (i + 1) f
      (by
        intro j hj
        have := hnone (j + 1) (by omega)
        rw [hs]
        simp only [lookupAt] at this
        rw [show i + 1 + j = i + (j + 1) by omega]
        exact this)
      (by rw [hs]; simpa only [lookupAt] using hr)
      (by omega)
    refine ⟨wd', by rw [hstep, hw], ?_, ?_⟩
    · rw [hcalls, hc, List.append_assoc]
      rfl
    · rw [hstate, hs]
      rfl

theorem WaitMined_reaches_cancel {σ : Type} (tr : Transactor σ) (ctx : Nat → SelectEnv)
    (tx : Transaction) (e : Error) :
    ∀ (k : Nat) (wd : World σ) (i fuel : Nat),
      (∀ j, j < k → (lookupAt tr tx wd.state j).1.1 = none ∧ selectOutcome (ctx (i + j)) = none) →
      (lookupAt tr tx wd.state k).1.1 = none → selectOutcome (ctx (i + k)) = some e → k < fuel →
      ∃ wd', WaitMined tr ctx tx fuel i wd = some ((none, some e), wd') ∧
        wd'.calls = wd.calls ++ List.replicate (k + 1) (Call.GetTransaction tx.Hash) ∧
        wd'.state = (lookupAt tr tx wd.state k).2 := by
  intro k
  induction k with
  | zero =>
    intro wd i fuel _ hr hsel hf
    obtain ⟨f, rfl⟩ : ∃ f, fuel = f + 1 := ⟨fuel - 1, by omega⟩
    simp only [lookupAt] at hr
    obtain ⟨hs, hc⟩ := afterFailedPoll_state tr tx wd
    have hstep := WaitMined_no_receipt tr ctx tx f i wd hr
    rw [Nat.add_zero] at hsel
    rw [hsel] at hstep
    exact ⟨_, hstep, by simpa using hc, by simpa [lookupAt] using hs⟩
  | succ k ih =>
    intro wd i fuel hnone hr hsel hf
    obtain ⟨f, rfl⟩ : ∃ f, fuel = f + 1 := ⟨fuel - 1, by omega⟩
    have h0 := hnone 0 (by omega)
    simp only [lookupAt, Nat.add_zero] at h0
    obtain ⟨hs, hc⟩ := afterFailedPoll_state tr tx wd
    have hstep := WaitMined_no_receipt tr ctx tx f i wd h0.1
    rw [h0.2] at hstep
    simp only at hstep
    obtain ⟨wd', hw, hcalls, hstate⟩ := ih (afterFailedPoll tr tx wd) (i + 1) f
      (by
        intro j hj
        have := hnone (j + 1) (by omega)
        rw [hs]
        simp only [lookupAt] at this
        rw [show i + 1 + j = i + (j + 1) by omega]
        exact this)
      (by rw [hs]; simpa only [lookupAt] using hr)
      (by rw [show i + 1 + k = i + (k + 1) by omega]; exact hsel)
      (by omega)
    refine ⟨wd', by rw [hstep, hw], ?_, ?_⟩
    · rw [hcalls, hc, List.append_assoc]
      rfl
    · rw [hstate, hs]
      rfl

theorem WaitMined_keeps_polling {σ : Type} (tr : Transactor σ) (ctx : Nat → SelectEnv)
    (tx : Transaction) :
    ∀ (n : Nat) (wd : World σ) (i : Nat),
      (∀ j, j < n → (lookupAt tr tx wd.state j).1.1 = none ∧ (ctx (i + j)).ctxErr = none) →
      (Nat.iterate (afterFailedPoll tr tx) n wd).calls =
        wd.calls ++ List.replicate n (Call.GetTransaction tx.Hash) ∧
      ∀ fuel, WaitMined tr ctx tx (n + fuel) i wd =
        WaitMined tr ctx tx fuel (i + n) (Nat.iterate (afterFailedPoll tr tx) n wd) := by
  intro n
  induction n with
  | zero =>
    intro wd i _
    simp
  | succ n ih =>
    intro wd i hnone
    have h0 := hnone 0 (by omega)
    simp only [lookupAt, Nat.add_zero] at h0
    obtain ⟨hs, hc⟩ := afterFailedPoll_state tr tx wd
    obtain ⟨hcalls, hrun⟩ := ih (afterFailedPoll tr tx wd) (i + 1)
      (by
        intro j hj
        have := hnone (j + 1) (by omega)
        rw [hs]
        simp only [lookupAt] at this
        rw [show i + 1 + j = i + (j + 1) by omega]
        exact this)
    rw [Function.iterate_succ_apply]
    constructor
    · rw [hcalls, hc, List.append_assoc]
      rfl
    · intro fuel
      have hstep := WaitMined_no_receipt tr ctx tx (n + fuel) i wd h0.1
      rw [selectOutcome_open _ h0.2] at hstep
      simp only at hstep
      rw [show n + 1 + fuel = n + fuel + 1 by omega, hstep, hrun fuel,
        show i + 1 + n = i + (n + 1) by omega]

theorem WaitMined_error_origin {σ : Type} (tr : Transactor σ) (ctx : Nat → SelectEnv)
    (tx : Transaction) :
    ∀ (fuel i : Nat) (wd : World σ) (rc : Option Transaction) (e : Error) (wd' : World σ),
      WaitMined tr ctx tx fuel i wd = some ((rc, some e), wd') →
      rc = none ∧ ∃ j, i ≤ j ∧ j < i + fuel ∧ (ctx j).ctxErr = some e := by
  intro fuel
  induction fuel with
  | zero =>
    intro i wd rc e wd' h
    simp [WaitMined] at h
  | succ fuel ih =>
    intro i wd rc e wd' h
    rcases hG : (tr.Client.GetTransaction wd.state tx.Hash).1.1 with _ | r
    · rw [WaitMined_no_receipt tr ctx tx fuel i wd hG] at h
      rcases hS : selectOutcome (ctx i) with _ | e'
      · rw [hS] at h
        simp only at h
        obtain ⟨h1, j, hj1, hj2, hj3⟩ := ih (i + 1) _ rc e wd' h
        exact ⟨h1, j, by omega, by omega, hj3⟩
      · rw [hS] at h
        simp only [Option.some.injEq, Prod.mk.injEq] at h
        obtain ⟨⟨h1, h2⟩, _⟩ := h
        subst h2
        exact ⟨h1.symm, i, by omega, by omega, selectOutcome_some _ _ hS⟩
    · rw [WaitMined_receipt tr ctx tx fuel i wd r hG] at h
      simp at h

theorem WaitMined_ignores_lookup_errors {σ : Type} (tr : Transactor σ) (ctx : Nat → SelectEnv)
    (tx : Transaction) :
    ∀ (fuel i : Nat) (wd wd2 : World σ), wd.state = wd2.state →
      (WaitMined ⟨dropLookupErrors tr.Client⟩ ctx tx fuel i wd2).map (fun res => res.1) =
        (WaitMined tr ctx tx fuel i wd).map (fun res => res.1) := by
  intro fuel
  induction fuel with
  | zero =>
    intro i wd wd2 _
    simp [WaitMined]
  | succ fuel ih =>
    intro i wd wd2 hst
    have hrc : ((dropLookupErrors tr.Client).GetTransaction wd2.state tx.Hash).1.1 =
        (tr.Client.GetTransaction wd.state tx.Hash).1.1 := by
      simp [dropLookupErrors, hst]
    have hnext : (afterFailedPoll ⟨dropLookupErrors tr.Client⟩ tx wd2).state =
        (afterFailedPoll tr tx wd).state := by
      rw [(afterFailedPoll_state _ tx wd2).1, (afterFailedPoll_state tr tx wd).1]
      simp [dropLookupErrors, hst]
    rcases hG : (tr.Client.GetTransaction wd.state tx.Hash).1.1 with _ | r
    · rw [hG] at hrc
      rw [WaitMined_no_receipt tr ctx tx fuel i wd hG,
        WaitMined_no_receipt ⟨dropLookupErrors tr.Client⟩ ctx tx fuel i wd2 hrc]
      rcases hS : selectOutcome (ctx i) with _ | e'
      · simp only
        exact ih (i + 1) _ _ hnext.symm
      · simp
    · rw [hG] at hrc
      rw [WaitMined_receipt tr ctx tx fuel i wd r hG,
        WaitMined_receipt ⟨dropLookupErrors tr.Client⟩ ctx tx fuel i wd2 r hrc]
      simp

/-- C6. At the first poll whose lookup returns a non-nil receipt (poll number
`k`, the `k` polls before it having returned none and the loop having gone on
to the next tick after each), `WaitMined` returns exactly that receipt with a
nil error, whatever error `err` the same lookup returned, for every fuel
above `k`; it has then made `k + 1` lookups and no other call. -/
theorem WaitMined_returns_first_receipt {σ : Type} (tr : Transactor σ)
    (ctx : Nat → SelectEnv) (tx : Transaction) (wd : World σ) (k fuel : Nat) (r : Transaction)
    (err : Option Error)
    (hnone : ∀ j, j < k →
      (lookupAt tr tx wd.state j).1.1 = none ∧ selectOutcome (ctx j) = none)
    (hr : (lookupAt tr tx wd.state k).1 = (some r, err)) (hf : k < fuel) :
    ∃ wd', WaitMined tr ctx tx fuel 0 wd = some ((some r, none), wd') ∧
      wd'.calls = wd.calls ++ List.replicate (k + 1) (Call.GetTransaction tx.Hash) ∧
      wd'.state = (lookupAt tr tx wd.state k).2 := by
  apply WaitMined_reaches_receipt tr ctx tx r k wd 0 fuel
  · intro j hj
    rw [Nat.zero_add]
    exact hnone j hj
  · rw [hr]
  · exact hf

/-- An instance of C6: the node answers the first lookup with an error, the
second with nothing, the third with a receipt together with an error; the
context is never cancelled. `WaitMined` returns the receipt and a nil error
after three lookups. -/
theorem WaitMined_returns_first_receipt_witness :
    ∃ wd', WaitMined ⟨scriptedClient exampleScript⟩ (fun _ => ⟨none, false⟩)
        exampleReceipt 5 0 (World.init 0) = some ((some exampleReceipt, none), wd') ∧
      wd'.calls = (World.init 0).calls ++
        List.replicate (2 + 1) (Call.GetTransaction exampleReceipt.Hash) ∧
      wd'.state = (lookupAt ⟨scriptedClient exampleScript⟩ exampleReceipt
        (World.init 0).state 2).2 :=
  WaitMined_returns_first_receipt ⟨scriptedClient exampleScript⟩ (fun _ => ⟨none, false⟩)
    exampleReceipt (World.init 0) 2 5 exampleReceipt (some (.external "late"))
    (by decide) (by decide) (by decide)

theorem WaitMined_calls {σ : Type} (tr : Transactor σ) (ctx : Nat → SelectEnv)
    (tx : Transaction) :
    ∀ (fuel i : Nat) (wd : World σ) (res : (Option Transaction × Option Error) × World σ),
      WaitMined tr ctx tx fuel i wd = some res →
      ∃ m, 1 ≤ m ∧ m ≤ fuel ∧
        res.2.calls = wd.calls ++ List.replicate m (Call.GetTransaction tx.Hash) := by
  intro fuel
  induction fuel with
  | zero =>
    intro i wd res h
    simp [WaitMined] at h
  | succ fuel ih =>
    intro i wd res h
    obtain ⟨_, hc⟩ := afterFailedPoll_state tr tx wd
    rcases hG : (tr.Client.GetTransaction wd.state tx.Hash).1.1 with _ | r
    · rw [WaitMined_no_receipt tr ctx tx fuel i wd hG] at h
      rcases hS : selectOutcome (ctx i) with _ | e'
      · rw [hS] at h
        simp only at h
        obtain ⟨m, h1, h2, h3⟩ := ih (i + 1) _ res h
        refine ⟨m + 1, by omega, by omega, ?_⟩
        rw [h3, hc, List.append_assoc]
        rfl
      · rw [hS] at h
        simp only [Option.some.injEq] at h
        subst h
        exact ⟨1, by omega, by omega, by simpa using hc⟩
    · rw [WaitMined_receipt tr ctx tx fuel i wd r hG] at h
      simp only [Option.some.injEq] at h
      subst h
      exact ⟨1, by omega, by omega, by simp [callGetTransaction]⟩

/-- C10. `WaitMined` never ends because of a lookup error. (1) For every
number `n` of polls that return no receipt, with or without an error, while
the context is not cancelled, the loop goes on to poll number `n`: it has
returned nothing within `n` iterations; if lookup `n` yields a receipt,
`WaitMined` returns it, and if lookup `n` yields none and the `select` that
follows takes the `Done` case, `WaitMined` returns the context's error, in
both cases for every fuel above `n` and after exactly `n + 1` lookups; and
any result it ever returns comes after at least `n + 1` lookups. (2) Every
error `WaitMined` returns comes with a nil receipt and is the value of
`ctx.Err()` met by the `select` of some iteration. (3) The pair `WaitMined`
returns is the same when every error of the lookups is replaced by a nil
error. -/
theorem WaitMined_only_cancellation_error {σ : Type} (tr : Transactor σ)
    (ctx : Nat → SelectEnv) (tx : Transaction) (wd : World σ) :
    (∀ n, (∀ j, j < n → (lookupAt tr tx wd.state j).1.1 = none ∧ (ctx j).ctxErr = none) →
      WaitMined tr ctx tx n 0 wd = none ∧
      (∀ fuel r, n < fuel → (lookupAt tr tx wd.state n).1.1 = some r →
        ∃ wd', WaitMined tr ctx tx fuel 0 wd = some ((some r, none), wd') ∧
          wd'.calls = wd.calls ++ List.replicate (n + 1) (Call.GetTransaction tx.Hash) ∧
          wd'.state = (lookupAt tr tx wd.state n).2) ∧
      (∀ fuel e, n < fuel → (lookupAt tr tx wd.state n).1.1 = none →
        selectOutcome (ctx n) = some e →
        ∃ wd', WaitMined tr ctx tx fuel 0 wd = some ((none, some e), wd') ∧
          wd'.calls = wd.calls ++ List.replicate (n + 1) (Call.GetTransaction tx.Hash) ∧
          wd'.state = (lookupAt tr tx wd.state n).2) ∧
      (∀ fuel res, WaitMined tr ctx tx fuel 0 wd = some res →
        ∃ m, n + 1 ≤ m ∧
          res.2.calls = wd.calls ++ List.replicate m (Call.GetTransaction tx.Hash))) ∧
    (∀ fuel rc e wd', WaitMined tr ctx tx fuel 0 wd = some ((rc, some e), wd') →
      rc = none ∧ ∃ j, j < fuel ∧ (ctx j).ctxErr = some e) ∧
    (∀ fuel, (WaitMined ⟨dropLookupErrors tr.Client⟩ ctx tx fuel 0 wd).map (fun res => res.1) =
      (WaitMined tr ctx tx fuel 0 wd).map (fun res => res.1)) := by
  refine ⟨?_, ?_, ?_⟩
  · intro n hnone
    have hticks : ∀ j, j < n →
        (lookupAt tr tx wd.state j).1.1 = none ∧ selectOutcome (ctx (0 + j)) = none := by
      intro j hj
      rw [Nat.zero_add]
      exact ⟨(hnone j hj).1, selectOutcome_open _ (hnone j hj).2⟩
    obtain ⟨hcalls, hrun⟩ := WaitMined_keeps_polling tr ctx tx n wd 0
      (by
        intro j hj
        rw [Nat.zero_add]
        exact hnone j hj)
    have hstill : WaitMined tr ctx tx n 0 wd = none := by
      have := hrun 0
      simpa [WaitMined] using this
    refine ⟨hstill, ?_, ?_, ?_⟩
    · intro fuel r hf hr
      exact WaitMined_reaches_receipt tr ctx tx r n wd 0 fuel hticks hr hf
    · intro fuel e hf hr hsel
      exact WaitMined_reaches_cancel tr ctx tx e n wd 0 fuel hticks hr
        (by rw [Nat.zero_add]; exact hsel) hf
    · intro fuel res h
      by_cases hfn : fuel ≤ n
      · obtain ⟨d, rfl⟩ : ∃ d, n = fuel + d := ⟨n - fuel, by omega⟩
        obtain ⟨_, hrun'⟩ := WaitMined_keeps_polling tr ctx tx fuel wd 0
          (by
            intro j hj
            rw [Nat.zero_add]
            exact hnone j (by omega))
        have := hrun' 0
        rw [Nat.add_zero, h] at this
        simp [WaitMined] at this
      · obtain ⟨d, rfl⟩ : ∃ d, fuel = n + d := ⟨fuel - n, by omega⟩
        rw [hrun d] at h
        obtain ⟨m, h1, _, h3⟩ := WaitMined_calls tr ctx tx d _ _ res h
        refine ⟨n + m, by omega, ?_⟩
        rw [h3, hcalls, List.append_assoc, ← List.replicate_add]
  · intro fuel rc e wd' h
    obtain ⟨h1, j, _, hj2, hj3⟩ := WaitMined_error_origin tr ctx tx fuel 0 wd rc e wd' h
    exact ⟨h1, j, by omega, hj3⟩
  · intro fuel
    exact WaitMined_ignores_lookup_errors tr ctx tx fuel 0 wd wd rfl

/-- An instance of C10: every lookup fails with an error and the context is
cancelled during the fourth wait. The three failed polls do not end the
loop; the fourth iteration polls again and returns the cancellation error,
not the lookup's, after four lookups. -/
theorem WaitMined_only_cancellation_error_witness :
    ∃ wd', WaitMined ⟨scriptedClient (fun _ => (none, some (.external "not found")))⟩
        cancelledFrom3 exampleReceipt 4 0 (World.init 0) = some ((none, some .canceled), wd') ∧
      wd'.calls = (World.init 0).calls ++
        List.replicate (3 + 1) (Call.GetTransaction exampleReceipt.Hash) ∧
      wd'.state = (lookupAt ⟨scriptedClient (fun _ => (none, some (.external "not found")))⟩
        exampleReceipt (World.init 0).state 3).2 :=
  ((WaitMined_only_cancellation_error
      ⟨scriptedClient (fun _ => (none, some (.external "not found")))⟩ cancelledFrom3
      exampleReceipt (World.init 0)).1 3 (by decide)).2.2.1 4 .canceled
    (by decide) (by decide) (by decide)

/-! ## Cancellation of the polling loop -/

/-- C7, as amended. In every run of `WaitMined` whose lookups return no
receipt and in which the context is open up to the `select` of iteration `c`
and cancelled from it on: `WaitMined` returns the context's cancellation
error, with a nil receipt, at the first `select` `j ≥ c` at which the runtime
takes the `Done` case rather than a ready ticker, for every fuel above `j`.
It has then made the `c + 1` lookups up to the cancellation and `j - c`
further ones: none when the ticker is not taken at `c`, one when it is taken
once. No bound in real time is stated. -/
theorem WaitMined_cancellation {σ : Type} (tr : Transactor σ) (ctx : Nat → SelectEnv)
    (tx : Transaction) (wd : World σ) (c j fuel : Nat) (e : Error)
    (hnone : ∀ i, i ≤ j → (lookupAt tr tx wd.state i).1.1 = none)
    (hopen : ∀ i, i < c → (ctx i).ctxErr = none)
    (hcancelled : ∀ i, i ≤ j → c ≤ i → (ctx i).ctxErr = some e)
    (hticker : ∀ i, i < j → c ≤ i → (ctx i).tickFirst = true)
    (hdone : (ctx j).tickFirst = false) (hcj : c ≤ j) (hf : j < fuel) :
    ∃ wd', WaitMined tr ctx tx fuel 0 wd = some ((none, some e), wd') ∧
      wd'.calls = wd.calls ++ List.replicate (c + 1) (Call.GetTransaction tx.Hash) ++
        List.replicate (j - c) (Call.GetTransaction tx.Hash) := by
  obtain ⟨wd', hw, hcalls, _⟩ := WaitMined_reaches_cancel tr ctx tx e j wd 0 fuel
    (by
      intro i hi
      rw [Nat.zero_add]
      refine ⟨hnone i (by omega), ?_⟩
      by_cases hic : i < c
      · exact selectOutcome_open _ (hopen i hic)
      · simp [selectOutcome, hcancelled i (by omega) (by omega), hticker i hi (by omega)])
    (hnone j (by omega))
    (by
      rw [Nat.zero_add]
      simp [selectOutcome, hcancelled j (by omega) hcj, hdone])
    hf
  refine ⟨wd', hw, ?_⟩
  rw [hcalls, List.append_assoc, ← List.replicate_add]
  congr 2
  omega

/-- An instance of C7 as amended: the context is cancelled during the second
wait, the runtime takes the ready ticker once and the `Done` case at the third
`select`. `WaitMined` returns the cancellation error after one further poll. -/
theorem WaitMined_cancellation_witness :
    ∃ wd', WaitMined ⟨scriptedClient (fun _ => (none, some (.external "not found")))⟩
        cancelledFrom1 exampleReceipt 5 0 (World.init 0) = some ((none, some .canceled), wd') ∧
      wd'.calls = (World.init 0).calls ++
        List.replicate (1 + 1) (Call.GetTransaction exampleReceipt.Hash) ++
        List.replicate (2 - 1) (Call.GetTransaction exampleReceipt.Hash) :=
  WaitMined_cancellation ⟨scriptedClient (fun _ => (none, some (.external "not found")))⟩
    cancelledFrom1 exampleReceipt (World.init 0) 1 2 5 .canceled
    (by decide) (by decide) (by decide) (by decide) (by decide) (by decide) (by decide)

/-- C7 as stated fails. The context is cancelled from the first wait on and
every lookup fails, yet `WaitMined` polls four more times after the first
poll before it returns the cancellation error: at each of the first four
`select`s the ticker is ready as well and the runtime takes it. -/
theorem WaitMined_polls_after_cancellation :
    (∀ i, i ≤ 4 → (cancelledRace i).ctxErr = some .canceled) ∧
    (WaitMined ⟨scriptedClient (fun _ => (none, some (.external "not found")))⟩ cancelledRace
      exampleReceipt 10 0 (World.init 0)).map (fun res => (res.1, res.2.calls)) =
      some ((none, some .canceled),
        List.replicate 5 (Call.GetTransaction exampleReceipt.Hash)) :=
  ⟨by decide, by decide⟩

/-! ## The submission guard -/

theorem CreateTransaction_calls {σ : Type} (tr : Transactor σ) (wd : World σ)
    (w : WalletSigner) (amount : String) (data : Bytes) (target : String)
    (minFee maxFee : Int) (includeFee : Bool) :
    (CreateTransaction tr wd w amount data target minFee maxFee includeFee).2.calls =
        wd.calls ++ [Call.TxAnchor] ∨
      (CreateTransaction tr wd w amount data target minFee maxFee includeFee).2.calls =
        wd.calls ++ [Call.TxAnchor, Call.GetReward data target] := by
  rcases hA : tr.Client.TxAnchor wd.state with ⟨⟨l, _ | aerr⟩, s1⟩
  · rcases hR : tr.Client.GetReward s1 data target with ⟨⟨p, _ | rerr⟩, s2⟩
    · right
      rcases hP : ParseInt p with ⟨e, _ | perr⟩
      · by_cases h1 : e < minFee <;> by_cases h2 : e > maxFee <;> cases includeFee <;>
          rcases hQ : ParseInt amount with ⟨a, _ | e⟩ <;>
          simp [CreateTransaction, callTxAnchor, callGetReward, hA, hR, hP, hQ, h1, h2]
      · simp [CreateTransaction, callTxAnchor, callGetReward, hA, hR, hP]
    · right
      simp [CreateTransaction, callTxAnchor, callGetReward, hA, hR]
  · left
    simp [CreateTransaction, callTxAnchor, hA]

/-- C5. `SendTransaction` on a transaction with an empty signature returns the
missing-signature error and makes no call on the client (in particular none
to `Commit`), leaving the world as it was. Conversely, whatever the
transaction, every `Commit` call `SendTransaction` adds to the calls made
before is made with the serialisation of that transaction, whose signature is
then non-empty; and the other methods, `CreateTransaction`,
`CreateTransactionWithFee` and `WaitMined`, add no `Commit` call at all. -/
theorem SendTransaction_requires_signature {σ : Type}
    (marshal : Transaction → Bytes × Option Error) (tr : Transactor σ) (wd : World σ)
    (tx : Transaction) :
    (tx.Signature.length = 0 →
      (SendTransaction marshal tr wd tx).1 = ("", some missingSignature) ∧
      (SendTransaction marshal tr wd tx).2.calls = wd.calls ∧
      (SendTransaction marshal tr wd tx).2.state = wd.state) ∧
    (∃ added, (SendTransaction marshal tr wd tx).2.calls = wd.calls ++ added ∧
      ∀ d : Bytes, Call.Commit d ∈ added → tx.Signature ≠ [] ∧ marshal tx = (d, none)) ∧
    (∀ (w : WalletSigner) (amount : String) (data : Bytes) (target : String)
      (minFee maxFee fee : Int) (includeFee : Bool),
      (∃ added,
        (CreateTransaction tr wd w amount data target minFee maxFee includeFee).2.calls =
          wd.calls ++ added ∧ ∀ d : Bytes, Call.Commit d ∉ added) ∧
      (∃ added,
        (CreateTransactionWithFee tr wd w amount data target fee includeFee).2.calls =
          wd.calls ++ added ∧ ∀ d : Bytes, Call.Commit d ∉ added)) ∧
    (∀ (ctx : Nat → SelectEnv) (fuel : Nat) (res : (Option Transaction × Option Error) × World σ),
      WaitMined tr ctx tx fuel 0 wd = some res →
      ∃ added, res.2.calls = wd.calls ++ added ∧ ∀ d : Bytes, Call.Commit d ∉ added) := by
  refine ⟨?_, ?_, ?_, ?_⟩
  · intro hs
    simp [SendTransaction, hs]
  · by_cases hs : tx.Signature.length = 0
    · exact ⟨[], by simp [SendTransaction, hs], by simp⟩
    · have hne : tx.Signature ≠ [] := by
        intro h
        apply hs
        rw [h]
        rfl
      rcases hM : marshal tx with ⟨ser, _ | e⟩
      · refine ⟨[Call.Commit ser], by simp [SendTransaction, hs, hM, callCommit], ?_⟩
        intro d hd
        simp only [List.mem_singleton, Call.Commit.injEq] at hd
        subst hd
        exact ⟨hne, rfl⟩
      · exact ⟨[], by simp [SendTransaction, hs, hM], by simp⟩
  · intro w amount data target minFee maxFee fee includeFee
    constructor
    · rcases CreateTransaction_calls tr wd w amount data target minFee maxFee includeFee
        with h | h
      · exact ⟨_, h, by simp⟩
      · exact ⟨_, h, by simp⟩
    · exact ⟨_, CreateTransactionWithFee_calls tr wd w amount data target fee includeFee,
        by simp⟩
  · intro ctx fuel res h
    obtain ⟨m, _, _, hm⟩ := WaitMined_calls tr ctx tx fuel 0 wd res h
    exact ⟨_, hm, by simp [List.mem_replicate]⟩

/-- Two instances of C5: an unsigned transaction is refused without any call;
a signed one is committed, once, with its serialisation. -/
theorem SendTransaction_requires_signature_witness :
    (SendTransaction (fun t => (t.data, none)) (fixedTransactor "anchor" "50") (World.init ())
      (NewTransaction "anchor" 65537 "950" "target" [1, 2] "50")).1 = ("", some missingSignature) ∧
    (SendTransaction (fun t => (t.data, none)) (fixedTransactor "anchor" "50") (World.init ())
      (NewTransaction "anchor" 65537 "950" "target" [1, 2] "50")).2.calls = [] ∧
    (SendTransaction (fun t => (t.data, none)) (fixedTransactor "anchor" "50") (World.init ())
      { NewTransaction "anchor" 65537 "950" "target" [1, 2] "50" with signature := [7] }).2.calls =
      [Call.Commit [1, 2]] :=
  ⟨((SendTransaction_requires_signature (fun t => (t.data, none))
      (fixedTransactor "anchor" "50") (World.init ())
      (NewTransaction "anchor" 65537 "950" "target" [1, 2] "50")).1 (by decide)).1,
   ((SendTransaction_requires_signature (fun t => (t.data, none))
      (fixedTransactor "anchor" "50") (World.init ())
      (NewTransaction "anchor" 65537 "950" "target" [1, 2] "50")).1 (by decide)).2.1,
   by decide⟩

/-! ## The address NewTransactor dials -/

theorem parse_scheme (parseAuthority : String → Option Error) (raw : List Char) (u : URL)
    (h : parse parseAuthority raw = (u, none)) :
    u.Scheme = String.mk ((getScheme raw).1.map Char.toLower) := by
  unfold parse at h
  split_ifs at h with h1 h2
  · simp at h
  · subst h2
    simp only [Prod.mk.injEq, and_true] at h
    subst h
    decide
  · revert h
    rcases hg : getScheme raw with ⟨scheme, rest, err⟩
    cases err with
    | some e => simp
    | none =>
      simp only
      intro h
      split_ifs at h
      all_goals (repeat' split at h)
      all_goals first
        | (simp only [Prod.mk.injEq, and_true] at h
           subst h
           rfl)
        | simp at h

/-- The scheme of a text `url.Parse` accepts is the one `getScheme` finds
before the fragment, in lower case. -/
theorem Parse_scheme (parseAuthority : String → Option Error) (s : String) (u : URL)
    (h : Parse parseAuthority s = (u, none)) : u.Scheme = schemeOf s := by
  unfold Parse at h
  rcases hp : parse parseAuthority (cut '#' s.data).1 with ⟨url, _ | e⟩
  · have hs := parse_scheme parseAuthority _ url hp
    simp only [hp] at h
    split_ifs at h
    · simp only [Prod.mk.injEq, and_true] at h
      subst h
      exact hs
    · split at h
      · simp at h
      · simp only [Prod.mk.injEq, and_true] at h
        subst h
        exact hs
  · simp [hp] at h

theorem NewTransactor_cases {κ : Type} (urlParse : String → URL × Option Error)
    (dial : String → κ × Option Error) (s : String) :
    (s = "" → NewTransactor urlParse dial s =
      (dialed (dial "http://127.0.0.1:1984"), ["http://127.0.0.1:1984"])) ∧
    (∀ u, s ≠ "" → urlParse s = (u, none) → u.Scheme = "" →
      NewTransactor urlParse dial s =
        (dialed (dial ("http://" ++ s ++ ":1984")), ["http://" ++ s ++ ":1984"])) ∧
    (∀ u, s ≠ "" → urlParse s = (u, none) → u.Scheme ≠ "" →
      NewTransactor urlParse dial s = (dialed (dial s), [s])) ∧
    (∀ u e, s ≠ "" → urlParse s = (u, some e) →
      NewTransactor urlParse dial s = ((none, some e), [])) := by
  have hdef : defaultURL = "http://127.0.0.1:1984" := by decide
  have hcat : "http://" ++ s ++ ":" ++ defaultPort = "http://" ++ s ++ ":1984" := by
    rw [String.append_assoc ("http://" ++ s)]
    have : ":" ++ defaultPort = ":1984" := by decide
    rw [this]
  refine ⟨?_, ?_, ?_, ?_⟩
  · intro hs
    subst hs
    rcases hD : dial "http://127.0.0.1:1984" with ⟨c, _ | e⟩ <;>
      simp [NewTransactor, dialed, hdef, hD]
  · intro u hs hp hsch
    rcases hD : dial ("http://" ++ s ++ ":1984") with ⟨c, _ | e⟩ <;>
      simp [NewTransactor, dialed, hs, hp, hsch, hcat, hD]
  · intro u hs hp hsch
    rcases hD : dial s with ⟨c, _ | e⟩ <;>
      simp [NewTransactor, dialed, hs, hp, hsch, hD]
  · intro u e hs hp
    simp [NewTransactor, hs, hp]

/-- C9, as amended. For every address string `s`: if `s` is empty
`NewTransactor` dials "http://127.0.0.1:1984". If `s` is non-empty and
`url.Parse` accepts it, the scheme it reports is the one found at the head of
`s`, and `NewTransactor` dials "http://" + s + ":1984" when there is none and
`s` unchanged when there is one. If `s` is non-empty and `url.Parse` rejects
it, `NewTransactor` dials nothing and returns the parse error. Where an
address is dialed it is the only one, and the result is the dial's: its
error, or a Transactor around its client. -/
theorem NewTransactor_dials {κ : Type} (parseAuthority : String → Option Error)
    (dial : String → κ × Option Error) (s : String) :
    (s = "" → NewTransactor (Parse parseAuthority) dial s =
      (dialed (dial "http://127.0.0.1:1984"), ["http://127.0.0.1:1984"])) ∧
    (∀ u, s ≠ "" → Parse parseAuthority s = (u, none) →
      u.Scheme = schemeOf s ∧
      (u.Scheme = "" → NewTransactor (Parse parseAuthority) dial s =
        (dialed (dial ("http://" ++ s ++ ":1984")), ["http://" ++ s ++ ":1984"])) ∧
      (u.Scheme ≠ "" → NewTransactor (Parse parseAuthority) dial s = (dialed (dial s), [s]))) ∧
    (∀ u e, s ≠ "" → Parse parseAuthority s = (u, some e) →
      NewTransactor (Parse parseAuthority) dial s = ((none, some e), [])) := by
  obtain ⟨h1, h2, h3, h4⟩ := NewTransactor_cases (Parse parseAuthority) dial s
  refine ⟨h1, ?_, h4⟩
  intro u hs hp
  exact ⟨Parse_scheme parseAuthority s u hp, h2 u hs hp, h3 u hs hp⟩

/-- Three instances of C9 as amended: the empty address, the bare host
"example.org", in which `url.Parse` finds no scheme, and "localhost:1984", in
which it finds the scheme "localhost". None of them has an authority part,
so the parameter `parseAuthority` is not consulted. -/
theorem NewTransactor_dials_witness :
    (NewTransactor (Parse (fun _ => none)) exampleDial "").2 = ["http://127.0.0.1:1984"] ∧
    (Parse (fun _ => none) "example.org" = (⟨""⟩, none) ∧
      (NewTransactor (Parse (fun _ => none)) exampleDial "example.org").2 =
        ["http://example.org:1984"]) ∧
    (Parse (fun _ => none) "localhost:1984" = (⟨"localhost"⟩, none) ∧
      (NewTransactor (Parse (fun _ => none)) exampleDial "localhost:1984").2 =
        ["localhost:1984"]) :=
  ⟨congrArg Prod.snd ((NewTransactor_dials (fun _ => none) exampleDial "").1 rfl),
   ⟨by decide,
    congrArg Prod.snd (((NewTransactor_dials (fun _ => none) exampleDial "example.org").2.1
      ⟨""⟩ (by decide) (by decide)).2.1 rfl)⟩,
   ⟨by decide,
    congrArg Prod.snd (((NewTransactor_dials (fun _ => none) exampleDial "localhost:1984").2.1
      ⟨"localhost"⟩ (by decide) (by decide)).2.2 (by decide))⟩⟩

/-- C9 as stated fails. The address "127.0.0.1:1984" is non-empty and has no
scheme, yet `NewTransactor` does not dial "http://127.0.0.1:1984:1984", nor
anything else: `url.Parse` rejects a scheme-less text whose first path
segment contains a colon, and `NewTransactor` returns that error. This holds
whatever the validation of authorities is. -/
theorem NewTransactor_host_port_rejected :
    "127.0.0.1:1984" ≠ "" ∧ schemeOf "127.0.0.1:1984" = "" ∧
    NewTransactor (Parse (fun _ => none)) exampleDial "127.0.0.1:1984" =
      ((none, some (.urlError "parse" "127.0.0.1:1984"
        (.errorString "first path segment in URL cannot contain colon"))), []) ∧
    ¬ ∃ parseAuthority : String → Option Error,
      (NewTransactor (Parse parseAuthority) exampleDial "127.0.0.1:1984").2 ≠ [] :=
  ⟨by decide, by decide, by decide, fun ⟨_, h⟩ => h rfl⟩

end Arweave
